import Mathlib

/-!
Shallow embedding of the crate-source acquisition core of `rustwide`
(`src/crates/{archive,cratesio,registry,mod}.rs`).

Strings are modelled as `List Char` (Rust iterates `chars()`, i.e. logical
characters). Filesystem trees are modelled as sets of paths: a flat string
path for cache files, a list of components for extraction destinations.
-/

namespace Rustwide

/-- Substring test on character lists, mirroring Rust `str::contains` for a
string pattern (the empty pattern is contained in every string). -/
def containsSub (s pat : List Char) : Bool :=
  match s with
  | [] => pat.isEmpty
  | _ :: rest => pat.isPrefixOf s || containsSub rest pat

/-- Fuel-indexed worker for `replaceList`; fuel bounds the number of steps so
that the recursion is structural. -/
def replaceFuel (pat rep : List Char) : Nat → List Char → List Char
  | 0, s => s
  | _ + 1, [] => []
  | fuel + 1, c :: rest =>
    if ¬pat.isEmpty ∧ pat.isPrefixOf (c :: rest) then
      rep ++ replaceFuel pat rep fuel ((c :: rest).drop pat.length)
    else
      c :: replaceFuel pat rep fuel rest

/-- Replace every non-overlapping occurrence of `pat` in `s` by `rep`,
scanning left to right: Rust `str::replace`. -/
def replaceList (s pat rep : List Char) : List Char :=
  replaceFuel pat rep s.length s

/-- Model of Rust `String::to_lowercase` (character-wise lowering; faithful
for the ASCII characters appearing in registry prefixes). -/
def lowerOf (s : List Char) : List Char :=
  s.map Char.toLower

/-- `RegistryCrate::prefix` (registry.rs:90-100). The source matches on
`name.chars().count()`; the wildcard arm takes the first four characters and
indexes elements 0..3, which panics when fewer than four are present (only
possible for the empty name). Panicking indexing is modelled by `Option`. -/
def prefixR (name : List Char) : Option (List Char) :=
  match name.length with
  | 1 => some ['1']
  | 2 => some ['2']
  | 3 =>
    match name.head? with
    | some c => some ['3', '/', c]
    | none => none
  | _ =>
    let chars := name.take 4
    match chars[0]?, chars[1]?, chars[2]?, chars[3]? with
    | some c0, some c1, some c2, some c3 => some [c0, c1, '/', c2, c3]
    | _, _, _, _ => none

def tokCrate : List Char := "{crate}".data

def tokVersion : List Char := "{version}".data

def tokPfx : List Char := "\x7bprefix\x7d".data

def tokLowerPfx : List Char := "{lowerprefix}".data

/-- The `replacements` array of `RegistryCrate::dl_url` (registry.rs:104-109),
in source order. -/
def dlReplacements (name version pfx : List Char) : List (List Char × List Char) :=
  [(tokCrate, name), (tokVersion, version), (tokPfx, pfx), (tokLowerPfx, lowerOf pfx)]

/-- `RegistryCrate::dl_url` (registry.rs:102-121) up to `Url::parse`: the
string handed to the URL parser. `none` models the panic of `prefix()` on an
empty name. -/
def dl_url_string (template name version : List Char) : Option (List Char) :=
  match prefixR name with
  | none => none
  | some pfx =>
    let reps := dlReplacements name version pfx
    if reps.any (fun kv => containsSub template kv.fst) then
      some (reps.foldl (fun u kv => replaceList u kv.fst kv.snd) template)
    else
      some (template ++ "/".data ++ name ++ "/".data ++ version ++ "/download".data)

/-- `slugify` (registry.rs:185-187): every non-alphanumeric character becomes
`-`. `Char.isAlphanum` models Rust `char::is_alphanumeric`. -/
def slugify (s : List Char) : List Char :=
  s.map (fun c => if c.isAlphanum then c else '-')

/-- `Path::join` with a single relative component. -/
def pathJoin (a b : List Char) : List Char :=
  a ++ "/".data ++ b

/-- `CRATES_ROOT` (cratesio.rs:9). -/
def CRATES_ROOT : List Char := "https://static.crates.io/crates".data

/-- `CratesIOCrate::cache_path` (cratesio.rs:19-25), mirroring the chain of
`join` calls. -/
def cratesioCachePath (cacheDir name version : List Char) : List Char :=
  pathJoin (pathJoin (pathJoin cacheDir ("cratesio-sources".data)) name)
    (name ++ "-".data ++ version ++ ".crate".data)

/-- The download URL built in `CratesIOCrate::fetch` (cratesio.rs:45-48),
mirroring the format string `"{0}/{1}/{1}-{2}.crate"`. -/
def cratesioRemote (name version : List Char) : List Char :=
  CRATES_ROOT ++ "/".data ++ name ++ "/".data ++ name ++ "-".data ++ version ++ ".crate".data

/-- `RegistryCrate::crate_cache_path` (registry.rs:30-37). -/
def registryCachePath (cacheDir index name version : List Char) : List Char :=
  pathJoin (pathJoin (pathJoin (pathJoin cacheDir ("registry-sources".data)) (slugify index)) name)
    (name ++ "-".data ++ version ++ ".crate".data)

/-- The prefix computation as described by the spec: length 1 → `1`, length 2
→ `2`, length 3 → `3/<first character>`, length ≥ 4 → `<c0><c1>/<c2><c3>`;
stated for comparison with `prefixR`. -/
def prefixSpecFn (name : List Char) : List Char :=
  match name with
  | [] => []
  | [_] => "1".data
  | [_, _] => "2".data
  | [c, _, _] => ['3', '/', c]
  | c0 :: c1 :: c2 :: c3 :: _ => [c0, c1, '/', c2, c3]

/-- The crates.io cache path as written in the spec:
`<cache_root>/cratesio-sources/<name>/<name>-<version>.crate`. -/
def cratesioCachePathSpec (cacheDir name version : List Char) : List Char :=
  cacheDir ++ "/cratesio-sources/".data ++ name ++ "/".data ++ name ++ "-".data ++ version
    ++ ".crate".data

/-- The crates.io download URL as written in the spec:
`https://static.crates.io/crates/<name>/<name>-<version>.crate`. -/
def cratesioRemoteSpec (name version : List Char) : List Char :=
  "https://static.crates.io/crates/".data ++ name ++ "/".data ++ name ++ "-".data ++ version
    ++ ".crate".data

/-! ## Fetch state models (cratesio.rs:34-57, registry.rs:131-152)

A fetch interacts with the filesystem (the set of existing cache files) and
the network. The outcome of the network interaction is an input of the model:
the HTTP GET can succeed, fail with an error status (before the cache file is
created), or fail mid-stream (after the cache file is created, leaving a
partial file). The registry variant additionally resolves the index
(`dl_url` → `index_config` → `update_index`) before the GET, which can itself
fail. -/

/-- World state for the crates.io variant: the set of existing files and the
trace of URLs fetched over HTTP, most recent first. -/
structure CIOWorld where
  files : List (List Char)
  gets : List (List Char)
deriving DecidableEq

inductive NetOutcome where
  | success
  | httpError
  | midStream
deriving DecidableEq

/-- `CratesIOCrate::fetch` (cratesio.rs:34-57): return early on a cache hit,
otherwise GET the fixed crates.io URL; the cache file exists afterwards
exactly when the body started streaming (`success` or `midStream`). The
returned `Bool` is `Ok`/`Err`. -/
def cratesioFetch (cacheDir name version : List Char) (o : NetOutcome) (w : CIOWorld) :
    CIOWorld × Bool :=
  let localPath := cratesioCachePath cacheDir name version
  if localPath ∈ w.files then
    (w, true)
  else
    let remote := cratesioRemote name version
    match o with
    | .success => ({ files := localPath :: w.files, gets := remote :: w.gets }, true)
    | .httpError => ({ files := w.files, gets := remote :: w.gets }, false)
    | .midStream => ({ files := localPath :: w.files, gets := remote :: w.gets }, false)

/-- World state for the alternate-registry variant: existing files, the number
of HTTP GETs, and the number of index resolutions (clone/update + config
read). -/
structure RegWorld where
  files : List (List Char)
  net : Nat
  idx : Nat
deriving DecidableEq

inductive RegOutcome where
  | indexError
  | success
  | httpError
  | midStream
deriving DecidableEq

/-- `RegistryCrate::fetch` (registry.rs:131-152): return early on a cache hit,
otherwise resolve the index (counted in `idx`), then GET the templated URL
(counted in `net`). `indexError` models `dl_url` failing, before any GET. -/
def registryFetch (cacheDir index name version : List Char) (o : RegOutcome) (w : RegWorld) :
    RegWorld × Bool :=
  let localPath := registryCachePath cacheDir index name version
  if localPath ∈ w.files then
    (w, true)
  else
    match o with
    | .indexError => ({ w with idx := w.idx + 1 }, false)
    | .httpError => ({ w with idx := w.idx + 1, net := w.net + 1 }, false)
    | .midStream =>
      ({ files := localPath :: w.files, net := w.net + 1, idx := w.idx + 1 }, false)
    | .success =>
      ({ files := localPath :: w.files, net := w.net + 1, idx := w.idx + 1 }, true)

/-! ## Archive extraction model (archive.rs)

Destination-side paths are lists of components. The filesystem is the set of
existing paths (files and directories); writing an entry creates every
ancestor directory (`create_dir_all`) and the path itself, so it adds every
initial segment of the written path. -/

/-- A filesystem path, as a list of components. -/
abbrev FPath := List String

/-- A filesystem: the set of existing paths, as a list. -/
abbrev FS := List FPath

/-- One tar entry: its recorded relative path, and `some e` when reading or
unpacking this entry fails with error `e` (covering both the `entry?` and the
`entry.unpack` failure points). -/
structure TarEntry where
  relpath : FPath
  err : Option Nat
deriving DecidableEq

/-- Writing a path creates it and all of its ancestors (`create_dir_all` on
the parent followed by `entry.unpack` on the full path). -/
def writePath (fs : FS) (p : FPath) : FS :=
  p.inits ++ fs

/-- Remove a directory tree: `remove_dir_all dest` deletes `dest` and
everything below it. -/
def removeUnder (dest : FPath) (fs : FS) : FS :=
  fs.filter (fun p => !dest.isPrefixOf p)

/-- `unpack_without_first_dir` (archive.rs:21-41): iterate the entries in
order; for each, drop the first component of its recorded path and write it
under `path`. Returns the first error together with the filesystem at the
point of failure. -/
def unpack_without_first_dir (path : FPath) : List TarEntry → FS → Option Nat × FS
  | [], fs => (none, fs)
  | e :: rest, fs =>
    match e.err with
    | some n => (some n, fs)
    | none => unpack_without_first_dir path rest (writePath fs (path ++ e.relpath.tail))

/-- `unpack` (archive.rs:9-19): run the extraction; on failure remove the
destination tree best-effort (`removeOk` tells whether that removal itself
succeeds) and return the original error either way. `archive` is
`Except.error n` when opening/iterating the archive fails before any entry. -/
def unpack (dest : FPath) (archive : Except Nat (List TarEntry)) (removeOk : Bool)
    (fs : FS) : Option Nat × FS :=
  match archive with
  | .error n => (some n, if removeOk then removeUnder dest fs else fs)
  | .ok entries =>
    match unpack_without_first_dir dest entries fs with
    | (none, fs') => (none, fs')
    | (some n, fs') => (some n, if removeOk then removeUnder dest fs' else fs')

/-- A filesystem is wellformed when it is closed under ancestors: if a path
exists, so does every initial segment of it. Real filesystems satisfy this. -/
def Wellformed (fs : FS) : Prop :=
  ∀ p ∈ fs, ∀ q ∈ p.inits, q ∈ fs

/-- The clean-up step of `Crate::copy_source_to` (mod.rs:77-83): if the
destination exists, remove it recursively. -/
def cleanDest (dest : FPath) (fs : FS) : FS :=
  if dest ∈ fs then removeUnder dest fs else fs

/-- `Crate::copy_source_to` (mod.rs:76-85): clean the destination, then
delegate to the variant's copy logic. -/
def copy_source_to (dest : FPath) (variantCopy : FS → Option Nat × FS) (fs : FS) :
    Option Nat × FS :=
  variantCopy (cleanDest dest fs)

/-! ## Claim theorems -/

/-- C1: `dl_url` uses exactly one of two forms, selected by presence of a
placeholder token in the raw template: with no token present the URL string is
exactly `<template>/<name>/<version>/download`; with at least one token
present every occurrence of `{crate}`, `{version}`, `{prefix}` and
`{lowerprefix}` is substituted (in that order) by the name, the version, the
prefix and its lowercase form; the spec's two template examples evaluate as
stated. -/
theorem dl_url_spec :
    (∀ template name version pfx : List Char, prefixR name = some pfx →
      (containsSub template tokCrate || containsSub template tokVersion ||
        containsSub template tokPfx || containsSub template tokLowerPfx) = false →
      dl_url_string template name version =
        some (template ++ "/".data ++ name ++ "/".data ++ version ++ "/download".data)) ∧
    (∀ template name version pfx : List Char, prefixR name = some pfx →
      (containsSub template tokCrate || containsSub template tokVersion ||
        containsSub template tokPfx || containsSub template tokLowerPfx) = true →
      dl_url_string template name version =
        some (replaceList (replaceList (replaceList (replaceList template tokCrate name)
          tokVersion version) tokPfx pfx) tokLowerPfx (lowerOf pfx))) ∧
    dl_url_string "https://example.com/{crate}/{crate}-{version}.crate".data "foo".data
        "1.0.0".data = some "https://example.com/foo/foo-1.0.0.crate".data ∧
    dl_url_string "https://example.com/api/v1".data "foo".data "1.0.0".data
      = some "https://example.com/api/v1/foo/1.0.0/download".data := by
  refine ⟨?_, ?_, by decide, by decide⟩
  · intro template name version pfx hpfx hcond
    simp only [dl_url_string, hpfx, dlReplacements, List.any_cons, List.any_nil] at *
    simp only [Bool.or_assoc] at hcond ⊢
    simp [hcond]
  · intro template name version pfx hpfx hcond
    simp only [dl_url_string, hpfx, dlReplacements, List.any_cons, List.any_nil] at *
    simp only [Bool.or_assoc] at hcond ⊢
    simp [hcond, List.foldl]

/-- C1 witness: the no-placeholder form at a concrete template. -/
theorem dl_url_spec_witness :
    dl_url_string "https://example.com/api/v1".data "foo".data "1.0.0".data
      = some ("https://example.com/api/v1".data ++ "/".data ++ "foo".data ++ "/".data
          ++ "1.0.0".data ++ "/download".data) :=
  dl_url_spec.1 ("https://example.com/api/v1".data) ("foo".data) ("1.0.0".data)
    (['3', '/', 'f']) (by decide) (by decide)

/-- C2: on every non-empty name `prefix` agrees with the spec's by-character
case analysis, and the spec's five examples hold. -/
theorem prefix_matches_spec :
    (∀ name : List Char, name ≠ [] → prefixR name = some (prefixSpecFn name)) ∧
    prefixR "a".data = some "1".data ∧
    prefixR "ab".data = some "2".data ∧
    prefixR "abc".data = some "3/a".data ∧
    prefixR "abcd".data = some "ab/cd".data ∧
    prefixR "serde".data = some "se/rd".data := by
  refine ⟨?_, by decide, by decide, by decide, by decide, by decide⟩
  intro name h
  match name with
  | [] => exact absurd rfl h
  | [a] => simp [prefixR, prefixSpecFn]
  | [a, b] => simp [prefixR, prefixSpecFn]
  | [a, b, c] => simp [prefixR, prefixSpecFn]
  | c0 :: c1 :: c2 :: c3 :: rest => simp [prefixR, prefixSpecFn]

/-- C2 witness: the spec case analysis instantiated at `serde`. -/
theorem prefix_matches_spec_witness :
    prefixR "serde".data = some (prefixSpecFn "serde".data) :=
  prefix_matches_spec.1 ("serde".data) (by decide)

/-- C10: `prefix` on the empty name falls into the wildcard arm and performs
an out-of-bounds index (modelled as `none`); on every non-empty name all
indexing is in bounds and `prefix` returns normally. -/
theorem prefix_nonempty_total :
    prefixR [] = none ∧ ∀ name : List Char, name ≠ [] → (prefixR name).isSome = true := by
  refine ⟨by decide, ?_⟩
  intro name h
  match name with
  | [a] => simp [prefixR]
  | [a, b] => simp [prefixR]
  | [a, b, c] => simp [prefixR]
  | c0 :: c1 :: c2 :: c3 :: rest => simp [prefixR]

/-- C10 witness: a one-character name returns normally. -/
theorem prefix_nonempty_total_witness :
    (prefixR ['a']).isSome = true :=
  prefix_nonempty_total.2 ['a'] (by decide)

/-- C8: `slugify` keeps the length, maps alphanumeric characters to
themselves and everything else to `-`; consequently two index URLs share a
slug only if they have the same length and identical alphanumeric characters
at identical positions. -/
theorem slugify_collision :
    (∀ (s : List Char) (i : Nat),
        (slugify s).length = s.length ∧
        (slugify s)[i]? = (s[i]?).map (fun c => if c.isAlphanum then c else '-')) ∧
    (∀ s t : List Char, slugify s = slugify t →
        s.length = t.length ∧
        ∀ (i : Nat) (c c' : Char), s[i]? = some c → t[i]? = some c' →
          (c.isAlphanum = true → c' = c) ∧ (c'.isAlphanum = true → c = c')) := by
  constructor
  · intro s i
    exact ⟨by simp [slugify], by simp [slugify, List.getElem?_map]⟩
  · intro s t h
    have hlen : s.length = t.length := by
      have h2 := congrArg List.length h
      simpa [slugify] using h2
    refine ⟨hlen, ?_⟩
    intro i c c' hc hc'
    have hi := congrArg (fun l => l[i]?) h
    simp only [slugify, List.getElem?_map, hc, hc', Option.map_some] at hi
    have hi' : (if c.isAlphanum then c else '-') = (if c'.isAlphanum then c' else '-') :=
      Option.some.inj hi
    constructor
    · intro hca
      by_cases hcb : c'.isAlphanum = true
      · rw [if_pos hca, if_pos hcb] at hi'
        exact hi'.symm
      · rw [if_pos hca, if_neg hcb] at hi'
        rw [hi'] at hca
        exact absurd hca (by decide)
    · intro hcb
      by_cases hca : c.isAlphanum = true
      · rw [if_pos hca, if_pos hcb] at hi'
        exact hi'
      · rw [if_neg hca, if_pos hcb] at hi'
        rw [← hi'] at hcb
        exact absurd hcb (by decide)

/-- C8 witness: two URLs differing in one non-alphanumeric character collide,
and the characterization applies to them. -/
theorem slugify_collision_witness :
    (slugify "http:x".data).length = "http:x".data.length ∧
    "http:x".data.length = "http-x".data.length ∧ 'h' = 'h' :=
  ⟨(slugify_collision.1 ("http:x".data) 0).1,
   (slugify_collision.2 ("http:x".data) ("http-x".data) (by decide)).1,
   ((slugify_collision.2 ("http:x".data) ("http-x".data) (by decide)).2 0 'h' 'h' (by decide)
     (by decide)).1 (by decide)⟩

/-- C7: the crates.io cache path is exactly
`<cache_root>/cratesio-sources/<N>/<N>-<V>.crate`, the download URL is
exactly `https://static.crates.io/crates/<N>/<N>-<V>.crate`, and on a cache
miss `fetch` issues a GET to exactly that URL. -/
theorem cratesio_paths_spec :
    (∀ cacheDir name version : List Char,
      cratesioCachePath cacheDir name version = cratesioCachePathSpec cacheDir name version) ∧
    (∀ name version : List Char,
      cratesioRemote name version = cratesioRemoteSpec name version) ∧
    (∀ (cacheDir name version : List Char) (o : NetOutcome) (w : CIOWorld),
      cratesioCachePath cacheDir name version ∉ w.files →
      (cratesioFetch cacheDir name version o w).1.gets = cratesioRemote name version :: w.gets) := by
  refine ⟨?_, ?_, ?_⟩
  · intro cacheDir name version
    simp only [cratesioCachePath, cratesioCachePathSpec, pathJoin, List.append_assoc]
    rfl
  · intro name version
    simp only [cratesioRemote, cratesioRemoteSpec, CRATES_ROOT, List.append_assoc]
    rfl
  · intro cacheDir name version o w hmiss
    simp only [cratesioFetch, if_neg hmiss]
    cases o <;> rfl

/-- C7 witness: the path equality and the GET trace at concrete inputs. -/
theorem cratesio_paths_spec_witness :
    cratesioCachePath [] ("a".data) ("1".data) = cratesioCachePathSpec [] ("a".data) ("1".data) ∧
    (cratesioFetch [] ("a".data) ("1".data) NetOutcome.success ⟨[], []⟩).1.gets
      = [cratesioRemote ("a".data) ("1".data)] :=
  ⟨cratesio_paths_spec.1 [] ("a".data) ("1".data),
   cratesio_paths_spec.2.2 [] ("a".data) ("1".data) NetOutcome.success ⟨[], []⟩ (by decide)⟩

/-- C3: for both registry-hosted and alternate-registry sources, a fetch whose
cache file already exists returns success immediately with the world
unchanged (no network or index access); after a successful fetch, a second
fetch is a pure existence check, so two fetches perform network I/O at most
once. -/
theorem fetch_idempotent :
    (∀ (cacheDir name version : List Char) (o : NetOutcome) (w : CIOWorld),
      cratesioCachePath cacheDir name version ∈ w.files →
      cratesioFetch cacheDir name version o w = (w, true)) ∧
    (∀ (cacheDir index name version : List Char) (o : RegOutcome) (w : RegWorld),
      registryCachePath cacheDir index name version ∈ w.files →
      registryFetch cacheDir index name version o w = (w, true)) ∧
    (∀ (cacheDir name version : List Char) (o2 : NetOutcome) (w : CIOWorld),
      cratesioFetch cacheDir name version o2
          (cratesioFetch cacheDir name version NetOutcome.success w).1
        = ((cratesioFetch cacheDir name version NetOutcome.success w).1, true) ∧
      (cratesioFetch cacheDir name version NetOutcome.success w).1.gets.length
        ≤ w.gets.length + 1) ∧
    (∀ (cacheDir index name version : List Char) (o2 : RegOutcome) (w : RegWorld),
      registryFetch cacheDir index name version o2
          (registryFetch cacheDir index name version RegOutcome.success w).1
        = ((registryFetch cacheDir index name version RegOutcome.success w).1, true) ∧
      (registryFetch cacheDir index name version RegOutcome.success w).1.net ≤ w.net + 1 ∧
      (registryFetch cacheDir index name version RegOutcome.success w).1.idx ≤ w.idx + 1) := by
  refine ⟨?_, ?_, ?_, ?_⟩
  · intro cacheDir name version o w hmem
    simp [cratesioFetch, if_pos hmem]
  · intro cacheDir index name version o w hmem
    simp [registryFetch, if_pos hmem]
  · intro cacheDir name version o2 w
    by_cases hmem : cratesioCachePath cacheDir name version ∈ w.files
    · simp [cratesioFetch, if_pos hmem]
    · simp [cratesioFetch, if_neg hmem]
  · intro cacheDir index name version o2 w
    by_cases hmem : registryCachePath cacheDir index name version ∈ w.files
    · simp [registryFetch, if_pos hmem]
    · simp [registryFetch, if_neg hmem]

/-- C3 witness: a cache hit returns success and leaves the world unchanged,
for both variants. -/
theorem fetch_idempotent_witness :
    cratesioFetch [] ("a".data) ("1".data) NetOutcome.success
        ⟨[cratesioCachePath [] ("a".data) ("1".data)], []⟩
      = (⟨[cratesioCachePath [] ("a".data) ("1".data)], []⟩, true) ∧
    registryFetch [] ("i".data) ("a".data) ("1".data) RegOutcome.success
        ⟨[registryCachePath [] ("i".data) ("a".data) ("1".data)], 0, 0⟩
      = (⟨[registryCachePath [] ("i".data) ("a".data) ("1".data)], 0, 0⟩, true) :=
  ⟨fetch_idempotent.1 [] ("a".data) ("1".data) NetOutcome.success _ (by decide),
   fetch_idempotent.2.1 [] ("i".data) ("a".data) ("1".data) RegOutcome.success _ (by decide)⟩

/-- C9: a mid-stream failure leaves the cache file present although the fetch
returned an error; every later fetch for the same identity treats it as a
cache hit, returns success, and performs no further network or index access
(the world is unchanged). Holds for both registry variants. -/
theorem fetch_partial_file_cache_hit :
    (∀ (cacheDir name version : List Char) (w : CIOWorld),
      cratesioCachePath cacheDir name version ∉ w.files →
      (cratesioFetch cacheDir name version NetOutcome.midStream w).2 = false ∧
      cratesioCachePath cacheDir name version
        ∈ (cratesioFetch cacheDir name version NetOutcome.midStream w).1.files ∧
      ∀ o2 : NetOutcome,
        cratesioFetch cacheDir name version o2
            (cratesioFetch cacheDir name version NetOutcome.midStream w).1
          = ((cratesioFetch cacheDir name version NetOutcome.midStream w).1, true)) ∧
    (∀ (cacheDir index name version : List Char) (w : RegWorld),
      registryCachePath cacheDir index name version ∉ w.files →
      (registryFetch cacheDir index name version RegOutcome.midStream w).2 = false ∧
      registryCachePath cacheDir index name version
        ∈ (registryFetch cacheDir index name version RegOutcome.midStream w).1.files ∧
      ∀ o2 : RegOutcome,
        registryFetch cacheDir index name version o2
            (registryFetch cacheDir index name version RegOutcome.midStream w).1
          = ((registryFetch cacheDir index name version RegOutcome.midStream w).1, true)) := by
  constructor
  · intro cacheDir name version w hmiss
    refine ⟨by simp [cratesioFetch, if_neg hmiss], by simp [cratesioFetch, if_neg hmiss], ?_⟩
    intro o2
    simp [cratesioFetch, if_neg hmiss]
  · intro cacheDir index name version w hmiss
    refine ⟨by simp [registryFetch, if_neg hmiss], by simp [registryFetch, if_neg hmiss], ?_⟩
    intro o2
    simp [registryFetch, if_neg hmiss]

/-- C9 witness: a mid-stream failure on an empty cache reports an error for
both variants. -/
theorem fetch_partial_file_cache_hit_witness :
    (cratesioFetch [] ("a".data) ("1".data) NetOutcome.midStream ⟨[], []⟩).2 = false ∧
    (registryFetch [] ("i".data) ("a".data) ("1".data) RegOutcome.midStream ⟨[], 0, 0⟩).2
      = false :=
  ⟨(fetch_partial_file_cache_hit.1 [] ("a".data) ("1".data) ⟨[], []⟩ (by decide)).1,
   (fetch_partial_file_cache_hit.2 [] ("i".data) ("a".data) ("1".data) ⟨[], 0, 0⟩ (by decide)).1⟩

/-! ## Helper lemmas -/

theorem mem_writePath {fs : FS} {q p : FPath} : p ∈ writePath fs q ↔ p <+: q ∨ p ∈ fs := by
  simp [writePath, List.mem_inits]

theorem not_mem_removeUnder {dest p : FPath} (h : dest <+: p) (fs : FS) :
    p ∉ removeUnder dest fs := by
  simp only [removeUnder, List.mem_filter, Bool.not_eq_true']
  rintro ⟨-, hfilter⟩
  rw [← List.isPrefixOf_iff_prefix] at h
  simp [h] at hfilter

theorem prefix_append_cancel {d p q : List String} : d ++ p <+: d ++ q ↔ p <+: q := by
  constructor
  · rintro ⟨t, ht⟩
    rw [List.append_assoc] at ht
    exact ⟨t, List.append_cancel_left ht⟩
  · rintro ⟨t, ht⟩
    exact ⟨t, by rw [List.append_assoc, ht]⟩

theorem unpack_worker_all_ok (dest : FPath) :
    ∀ (entries : List TarEntry) (fs : FS), (∀ e ∈ entries, e.err = none) →
      (unpack_without_first_dir dest entries fs).1 = none ∧
      ∀ p : FPath, p ∈ (unpack_without_first_dir dest entries fs).2 ↔
        p ∈ fs ∨ ∃ e ∈ entries, p <+: dest ++ e.relpath.tail := by
  intro entries
  induction entries with
  | nil => intro fs _; simp [unpack_without_first_dir]
  | cons e rest ih =>
    intro fs h
    have he : e.err = none := h e (by simp)
    have hrest : ∀ e' ∈ rest, e'.err = none := fun e' h' => h e' (by simp [h'])
    obtain ⟨ih1, ih2⟩ := ih (writePath fs (dest ++ e.relpath.tail)) hrest
    simp only [unpack_without_first_dir, he]
    refine ⟨ih1, ?_⟩
    intro p
    rw [ih2 p, mem_writePath]
    simp only [List.mem_cons]
    constructor
    · rintro ((hp | hp) | ⟨e', he', hp⟩)
      · exact Or.inr ⟨e, Or.inl rfl, hp⟩
      · exact Or.inl hp
      · exact Or.inr ⟨e', Or.inr he', hp⟩
    · rintro (hp | ⟨e', he' | he', hp⟩)
      · exact Or.inl (Or.inr hp)
      · exact Or.inl (Or.inl (he' ▸ hp))
      · exact Or.inr ⟨e', he', hp⟩

/-- C4: if entry iteration or any entry's extraction fails partway, the
destination directory is recursively removed before the error propagates (no
path under the destination survives when the removal succeeds); the removal is
best-effort — the returned error is the original extraction error whether or
not the removal succeeds. -/
theorem unpack_rollback :
    (∀ (dest : FPath) (archive : Except Nat (List TarEntry)) (fs : FS) (n : Nat) (fs' : FS),
      unpack dest archive true fs = (some n, fs') →
      ∀ p : FPath, dest <+: p → p ∉ fs') ∧
    (∀ (dest : FPath) (archive : Except Nat (List TarEntry)) (removeOk : Bool) (fs : FS),
      (unpack dest archive removeOk fs).1 = (unpack dest archive true fs).1) := by
  constructor
  · intro dest archive fs n fs' hrun p hp
    match archive with
    | .error m =>
      simp only [unpack] at hrun
      obtain ⟨-, rfl⟩ := Prod.mk.injEq .. ▸ And.intro (congrArg Prod.fst hrun) (congrArg Prod.snd hrun)
      exact not_mem_removeUnder hp fs
    | .ok entries =>
      simp only [unpack] at hrun
      rcases hw : unpack_without_first_dir dest entries fs with ⟨o, fsw⟩
      rw [hw] at hrun
      match o with
      | none => simp at hrun
      | some m =>
        simp only [if_pos rfl] at hrun
        have : fs' = removeUnder dest fsw := by
          have := congrArg Prod.snd hrun
          simpa using this.symm
        rw [this]
        exact not_mem_removeUnder hp fsw
  · intro dest archive removeOk fs
    match archive with
    | .error m => simp [unpack]
    | .ok entries =>
      simp only [unpack]
      rcases hw : unpack_without_first_dir dest entries fs with ⟨o, fsw⟩
      match o with
      | none => simp
      | some m => simp



/-- C4 witness: a concrete failing archive; after the failed unpack with a
successful removal, the destination itself is gone. -/
theorem unpack_rollback_witness :
    (["d"] : FPath) ∉
      (unpack ["d"] (Except.ok [⟨["x", "f"], some 7⟩]) true [([] : FPath)]).2 ∧
    (unpack ["d"] (Except.ok [⟨["x", "f"], some 7⟩]) false [([] : FPath)]).1
      = (unpack ["d"] (Except.ok [⟨["x", "f"], some 7⟩]) true [([] : FPath)]).1 :=
  ⟨unpack_rollback.1 ["d"] (Except.ok [⟨["x", "f"], some 7⟩]) [([] : FPath)] 7
      (unpack ["d"] (Except.ok [⟨["x", "f"], some 7⟩]) true [([] : FPath)]).2
      (by decide) ["d"] (by decide),
   unpack_rollback.2 ["d"] (Except.ok [⟨["x", "f"], some 7⟩]) false [([] : FPath)]⟩

/-- C5: for an archive whose every entry path starts with the common component
`x`, a successful unpack writes each entry to `dest ++ <relpath minus first
component>`; a path under the destination exists afterwards iff it existed
before or is an initial segment of some stripped entry path, and in particular
no `x` directory appears under the destination unless an entry carries a
nested `x`. -/
theorem unpack_strips_first_component :
    ∀ (dest : FPath) (x : String) (entries : List TarEntry) (removeOk : Bool) (fs : FS),
      (∀ e ∈ entries, e.err = none) →
      (∀ e ∈ entries, ∃ rest : FPath, e.relpath = x :: rest) →
      (unpack dest (Except.ok entries) removeOk fs).1 = none ∧
      (∀ e ∈ entries,
        dest ++ e.relpath.tail ∈ (unpack dest (Except.ok entries) removeOk fs).2) ∧
      (∀ p : FPath, dest ++ p ∈ (unpack dest (Except.ok entries) removeOk fs).2 ↔
        dest ++ p ∈ fs ∨ ∃ e ∈ entries, p <+: e.relpath.tail) ∧
      ((∀ e ∈ entries, ¬([x] <+: e.relpath.tail)) → dest ++ [x] ∉ fs →
        dest ++ [x] ∉ (unpack dest (Except.ok entries) removeOk fs).2) := by
  intro dest x entries removeOk fs hok hcommon
  obtain ⟨h1, h2⟩ := unpack_worker_all_ok dest entries fs hok
  have hres : unpack dest (Except.ok entries) removeOk fs
      = unpack_without_first_dir dest entries fs := by
    simp only [unpack]
    rcases hw : unpack_without_first_dir dest entries fs with ⟨o, fsw⟩
    rw [hw] at h1
    simp only at h1
    subst h1
    rfl
  rw [hres]
  refine ⟨h1, ?_, ?_, ?_⟩
  · intro e he
    rw [h2]
    exact Or.inr ⟨e, he, List.prefix_refl _⟩
  · intro p
    rw [h2]
    constructor
    · rintro (hp | ⟨e, he, hp⟩)
      · exact Or.inl hp
      · exact Or.inr ⟨e, he, prefix_append_cancel.mp hp⟩
    · rintro (hp | ⟨e, he, hp⟩)
      · exact Or.inl hp
      · exact Or.inr ⟨e, he, prefix_append_cancel.mpr hp⟩
  · intro hnox hnotfs hmem
    rw [h2] at hmem
    rcases hmem with hp | ⟨e, he, hp⟩
    · exact hnotfs hp
    · exact hnox e he (prefix_append_cancel.mp hp)

/-- C5 witness: a two-entry archive wrapped in `x/` extracts to the stripped
paths, with no `x` directory in the output. -/
theorem unpack_strips_first_component_witness :
    (unpack ["d"] (Except.ok [⟨["x", "a"], none⟩, ⟨["x"], none⟩]) true []).1 = none ∧
    (["d", "a"] : FPath)
      ∈ (unpack ["d"] (Except.ok [⟨["x", "a"], none⟩, ⟨["x"], none⟩]) true []).2 ∧
    (["d", "x"] : FPath)
      ∉ (unpack ["d"] (Except.ok [⟨["x", "a"], none⟩, ⟨["x"], none⟩]) true []).2 := by
  have hok : ∀ e ∈ [(⟨["x", "a"], none⟩ : TarEntry), ⟨["x"], none⟩], e.err = none := by
    decide
  have hcommon : ∀ e ∈ [(⟨["x", "a"], none⟩ : TarEntry), ⟨["x"], none⟩],
      ∃ rest : FPath, e.relpath = "x" :: rest := by
    intro e he
    simp only [List.mem_cons, List.not_mem_nil, or_false] at he
    rcases he with rfl | rfl
    · exact ⟨["a"], rfl⟩
    · exact ⟨[], rfl⟩
  obtain ⟨h1, h2, h3, h4⟩ :=
    unpack_strips_first_component ["d"] "x" [⟨["x", "a"], none⟩, ⟨["x"], none⟩] true [] hok
      hcommon
  refine ⟨h1, ?_, ?_⟩
  · have := h2 ⟨["x", "a"], none⟩ (by decide)
    simpa using this
  · exact h4 (by decide) (by decide)

/-- C6: the dispatcher's `copy_source_to` first clears the destination — after
the cleaning step nothing at or below the destination exists — and therefore,
when the variant copy is a successful archive extraction, the destination
afterwards holds exactly the newly extracted content, independent of what was
there before. -/
theorem copy_source_to_clean_destination :
    ∀ (dest : FPath) (fs : FS), Wellformed fs →
      (∀ p : FPath, dest <+: p → p ∉ cleanDest dest fs) ∧
      ∀ (entries : List TarEntry) (removeOk : Bool), (∀ e ∈ entries, e.err = none) →
        ∀ p : FPath,
          (dest ++ p
              ∈ (copy_source_to dest (unpack dest (Except.ok entries) removeOk) fs).2
            ↔ ∃ e ∈ entries, p <+: e.relpath.tail) := by
  intro dest fs hwf
  have hclean : ∀ p : FPath, dest <+: p → p ∉ cleanDest dest fs := by
    intro p hp hmem
    by_cases hdest : dest ∈ fs
    · rw [cleanDest, if_pos hdest] at hmem
      exact not_mem_removeUnder hp fs hmem
    · rw [cleanDest, if_neg hdest] at hmem
      exact hdest (hwf p hmem dest ((List.mem_inits _ _).mpr hp))
  refine ⟨hclean, ?_⟩
  intro entries removeOk hok p
  obtain ⟨h1, h2⟩ := unpack_worker_all_ok dest entries (cleanDest dest fs) hok
  have hres : copy_source_to dest (unpack dest (Except.ok entries) removeOk) fs
      = unpack_without_first_dir dest entries (cleanDest dest fs) := by
    simp only [copy_source_to, unpack]
    rcases hw : unpack_without_first_dir dest entries (cleanDest dest fs) with ⟨o, fsw⟩
    rw [hw] at h1
    simp only at h1
    subst h1
    rfl
  rw [hres, h2]
  constructor
  · rintro (hp | ⟨e, he, hp⟩)
    · exact absurd hp (hclean _ (List.prefix_append dest p))
    · exact ⟨e, he, prefix_append_cancel.mp hp⟩
  · rintro ⟨e, he, hp⟩
    exact Or.inr ⟨e, he, prefix_append_cancel.mpr hp⟩

/-- C6 witness: copying a one-entry archive into a destination pre-populated
with an unrelated file leaves exactly the new content. -/
theorem copy_source_to_clean_destination_witness :
    (["d", "old"] : FPath) ∉ cleanDest ["d"] [[], ["d"], ["d", "old"]] ∧
    ((["d", "old"] : FPath)
        ∈ (copy_source_to ["d"] (unpack ["d"] (Except.ok [⟨["x", "a"], none⟩]) true)
            [[], ["d"], ["d", "old"]]).2
      ↔ ∃ e ∈ [(⟨["x", "a"], none⟩ : TarEntry)], (["old"] : FPath) <+: e.relpath.tail) := by
  have hwf : Wellformed [[], ["d"], ["d", "old"]] := by
    unfold Wellformed
    decide
  obtain ⟨h1, h2⟩ := copy_source_to_clean_destination ["d"] [[], ["d"], ["d", "old"]] hwf
  exact ⟨h1 ["d", "old"] (by decide), h2 [⟨["x", "a"], none⟩] true (by decide) ["old"]⟩

end Rustwide
